import Mathlib

/-!
Verification of the sermonaudio.py repository against its specification.

The development shallowly embeds the parts of the code the claims are about:

* a flat filesystem model (association list from path to byte content) and
  the file events performed by the two `download_file` implementations
  (`sa_speaker.py` streams to `dest + ".part"` and then `os.replace`s it;
  `sermonaudio.py` writes directly to the output path);
* the name sanitizers `sermonaudio.sanitize_filename`,
  `old_sermonaudio.sanitize_filename` and `sa_speaker.slugify`;
* the paginated enumeration loop `sa_speaker.collect_sermon_ids_via_node`;
* the id extractor `sa_speaker.extract_sermon_ids_from_node_response`;
* the quality-fallback ladder `sermonaudio.download_audio_with_fallback`;
* the per-item job loop of `sa_speaker` (`download_sermon_audio` over a list
  of sermon ids) with its existence-based skip;
* the credential logic of `sa_auth.py` (`get_api_key` / `fetch_new_key`).

Network responses, the JSON parser and the metadata scraper are modelled as
explicit oracles passed to the embedded functions; everything else is
translated directly from the Python source.
-/

/-- A flat filesystem: newest-first association list from path to content
(content is a byte list, bytes as `Nat`). -/
abbrev FS := List (String × List Nat)

/-- Look a path up in the filesystem (newest entry wins). -/
def fsGet : FS → String → Option (List Nat)
  | [], _ => none
  | (q, v) :: rest, p => if p = q then some v else fsGet rest p

/-- Bind a path to a content (shadowing any older entry). -/
def fsSet (fs : FS) (p : String) (v : List Nat) : FS := (p, v) :: fs

/-- Remove every entry for a path. -/
def fsRemove (fs : FS) (p : String) : FS :=
  fs.filter (fun e => decide (e.1 ≠ p))

/-- One filesystem event performed by a downloader: `create p` truncates or
creates the file at `p` (Python `open(p, "wb")`), `append p c` appends chunk
`c` to it (`f.write(chunk)`), and `move src dst` is `os.replace(src, dst)`. -/
inductive FEvent where
  | create : String → FEvent
  | append : String → List Nat → FEvent
  | move : String → String → FEvent

def applyEvent (fs : FS) : FEvent → FS
  | .create p => fsSet fs p []
  | .append p c => fsSet fs p (((fsGet fs p).getD []) ++ c)
  | .move src dst =>
    match fsGet fs src with
    | some v => fsRemove (fsSet fs dst v) src
    | none => fs

def applyEvents (fs : FS) (evs : List FEvent) : FS := evs.foldl applyEvent fs

/-- An HTTP response for a single media GET: status code plus the sequence of
chunks `iter_content` / `response.read` delivers. -/
structure HttpResp where
  status : Nat
  chunks : List (List Nat)

/-- File events of `sa_speaker.download_file url dest`: on a non-200 status it
returns `False` without touching the filesystem; otherwise it opens
`tmp_path = dest_path + ".part"`, writes every non-empty chunk to it
(`if not chunk: continue`), and finally `os.replace(tmp_path, dest_path)`. -/
def spk_download_events (r : HttpResp) (dest : String) : List FEvent :=
  if r.status ≠ 200 then []
  else (FEvent.create (dest ++ ".part") ::
        (r.chunks.filter (fun c => decide (c ≠ []))).map (FEvent.append (dest ++ ".part")))
       ++ [FEvent.move (dest ++ ".part") dest]

/-- File events of `sermonaudio.download_file`: `urlopen` raises on a non-200
status before anything is written; on success the body is streamed directly
to `output_path` (`open(output_path, "wb")`, then chunks until an empty read
breaks the loop). No temporary path is involved. -/
def sa_download_events (r : HttpResp) (outPath : String) : List FEvent :=
  if r.status ≠ 200 then []
  else FEvent.create outPath ::
       (r.chunks.takeWhile (fun c => decide (c ≠ []))).map (FEvent.append outPath)

/-- The content the completed stream leaves behind: concatenation of the
chunks that were written. -/
def spk_full_content (r : HttpResp) : List Nat :=
  (r.chunks.filter (fun c => decide (c ≠ []))).flatten

/-- "At no point during execution does the destination path change": every
strict prefix of the event list leaves the lookup of `dest` exactly as it was
initially.  This is the claimed invariant — during a download the final
destination never holds partially-written data. -/
def DestUntouchedDuring (evs : List FEvent) (dest : String) (fs0 : FS) : Prop :=
  ∀ k, k < evs.length → fsGet (applyEvents fs0 (evs.take k)) dest = fsGet fs0 dest

/-- `eventAvoids q e` holds when event `e` cannot change what `fsGet · q`
returns. -/
def eventAvoids (q : String) : FEvent → Prop
  | .create p => p ≠ q
  | .append p _ => p ≠ q
  | .move src dst => src ≠ q ∧ dst ≠ q

-- ---------- basic filesystem lemmas ----------

theorem fsGet_fsSet_self (fs : FS) (p : String) (v : List Nat) :
    fsGet (fsSet fs p v) p = some v := by
  simp [fsGet, fsSet]

theorem fsGet_fsSet_ne (fs : FS) (p q : String) (v : List Nat) (h : p ≠ q) :
    fsGet (fsSet fs p v) q = fsGet fs q := by
  simp only [fsGet, fsSet]
  rw [if_neg (fun h' => h h'.symm)]

theorem fsGet_fsRemove_self (fs : FS) (p : String) :
    fsGet (fsRemove fs p) p = none := by
  induction fs with
  | nil => rfl
  | cons e rest ih =>
    obtain ⟨q, v⟩ := e
    by_cases h : q = p
    · have h1 : fsRemove ((q, v) :: rest) p = fsRemove rest p := by
        simp [fsRemove, List.filter_cons, h]
      rw [h1, ih]
    · have h1 : fsRemove ((q, v) :: rest) p = (q, v) :: fsRemove rest p := by
        simp [fsRemove, List.filter_cons, h]
      rw [h1, fsGet, if_neg (fun h' => h h'.symm), ih]

theorem fsGet_fsRemove_ne (fs : FS) (p q : String) (h : q ≠ p) :
    fsGet (fsRemove fs p) q = fsGet fs q := by
  induction fs with
  | nil => rfl
  | cons e rest ih =>
    obtain ⟨s, v⟩ := e
    by_cases hs : s = p
    · have h1 : fsRemove ((s, v) :: rest) p = fsRemove rest p := by
        simp [fsRemove, List.filter_cons, hs]
      rw [h1, ih, fsGet, if_neg (fun h' : q = s => h (h'.trans hs))]
    · have h1 : fsRemove ((s, v) :: rest) p = (s, v) :: fsRemove rest p := by
        simp [fsRemove, List.filter_cons, hs]
      rw [h1, fsGet, fsGet]
      by_cases hq : q = s
      · simp [hq]
      · simp [hq, ih]

theorem fsGet_applyEvent_avoids (fs : FS) (e : FEvent) (q : String)
    (h : eventAvoids q e) : fsGet (applyEvent fs e) q = fsGet fs q := by
  cases e with
  | create p => exact fsGet_fsSet_ne fs p q [] h
  | append p c => exact fsGet_fsSet_ne fs p q _ h
  | move src dst =>
    obtain ⟨h1, h2⟩ := h
    simp only [applyEvent]
    cases hsrc : fsGet fs src with
    | none => rfl
    | some v =>
      rw [fsGet_fsRemove_ne _ _ _ (fun h' => h1 h'.symm),
        fsGet_fsSet_ne _ _ _ _ h2]

theorem fsGet_applyEvents_avoids (evs : List FEvent) (fs : FS) (q : String)
    (h : ∀ e ∈ evs, eventAvoids q e) :
    fsGet (applyEvents fs evs) q = fsGet fs q := by
  induction evs generalizing fs with
  | nil => rfl
  | cons e rest ih =>
    have h1 : applyEvents fs (e :: rest) = applyEvents (applyEvent fs e) rest := rfl
    rw [h1, ih (applyEvent fs e) (fun x hx => h x (List.mem_cons_of_mem _ hx)),
      fsGet_applyEvent_avoids fs e q (h e (List.mem_cons_self _ _))]

theorem fsGet_append_run (l : List (List Nat)) (fs : FS) (p : String) (v : List Nat)
    (h : fsGet fs p = some v) :
    fsGet (applyEvents fs (l.map (FEvent.append p))) p = some (v ++ l.flatten) := by
  induction l generalizing fs v with
  | nil => simpa [applyEvents] using h
  | cons c rest ih =>
    have h1 : applyEvents fs ((c :: rest).map (FEvent.append p))
        = applyEvents (applyEvent fs (FEvent.append p c)) (rest.map (FEvent.append p)) := rfl
    have h2 : applyEvent fs (FEvent.append p c) = fsSet fs p (v ++ c) := by
      simp [applyEvent, h]
    rw [h1, h2, ih (fsSet fs p (v ++ c)) (v ++ c) (fsGet_fsSet_self fs p (v ++ c))]
    simp

theorem part_ne_self (dest : String) : dest ++ ".part" ≠ dest := by
  intro h
  have h1 := congrArg String.length h
  have h2 : (".part" : String).length = 5 := rfl
  rw [String.length_append, h2] at h1
  omega

theorem spk_events_eq (r : HttpResp) (dest : String) (h200 : r.status = 200) :
    spk_download_events r dest =
      (FEvent.create (dest ++ ".part") ::
        (r.chunks.filter (fun c => decide (c ≠ []))).map (FEvent.append (dest ++ ".part")))
      ++ [FEvent.move (dest ++ ".part") dest] := by
  simp [spk_download_events, h200]

/-- C1: claimed for every download; refuted by `sermonaudio.download_file`,
which streams the body directly to the output path: after the first chunk of
the response `⟨200, [[1], [2]]⟩` the destination `"d"` already holds the
partial content `[1]`, so the destination is not untouched during execution. -/
theorem C1_counterexample :
    ¬ DestUntouchedDuring (sa_download_events ⟨200, [[1], [2]]⟩ "d") "d" [] := by
  intro h
  have h2 := h 2 (by decide)
  exact absurd h2 (by decide)

/-- C1 (amended): for `sa_speaker.download_file`, every strict prefix of the
event trace changes nothing outside the temporary path `dest ++ ".part"`; in
particular the final destination is untouched while the stream is in flight
(interruption leaves partial data at the temporary path only), and only the
final atomic `os.replace` makes the full content appear at the destination,
removing the temporary file.  `sermonaudio.download_file` does not have this
property (see the counterexample): it streams directly to the output path. -/
theorem C1_speaker_atomic_publish (r : HttpResp) (dest : String) (fs0 : FS)
    (h200 : r.status = 200) :
    (∀ q, q ≠ dest ++ ".part" → ∀ k, k < (spk_download_events r dest).length →
        fsGet (applyEvents fs0 ((spk_download_events r dest).take k)) q = fsGet fs0 q)
    ∧ DestUntouchedDuring (spk_download_events r dest) dest fs0
    ∧ fsGet (applyEvents fs0 (spk_download_events r dest)) dest = some (spk_full_content r)
    ∧ fsGet (applyEvents fs0 (spk_download_events r dest)) (dest ++ ".part") = none := by
  have hev := spk_events_eq r dest h200
  have hside : ∀ q, q ≠ dest ++ ".part" → ∀ k, k < (spk_download_events r dest).length →
      fsGet (applyEvents fs0 ((spk_download_events r dest).take k)) q = fsGet fs0 q := by
    intro q hq k hk
    rw [hev] at hk ⊢
    have hk' : k ≤ (FEvent.create (dest ++ ".part") ::
        (r.chunks.filter (fun c => decide (c ≠ []))).map
          (FEvent.append (dest ++ ".part"))).length := by
      have hone : ([FEvent.move (dest ++ ".part") dest] : List FEvent).length = 1 := rfl
      rw [List.length_append, hone] at hk
      omega
    rw [List.take_append_of_le_length hk']
    apply fsGet_applyEvents_avoids
    intro e he
    have he' := List.take_subset _ _ he
    rcases List.mem_cons.mp he' with h1 | h1
    · subst h1
      simp only [eventAvoids]
      exact fun h' => hq h'.symm
    · obtain ⟨c, _, rfl⟩ := List.mem_map.mp h1
      simp only [eventAvoids]
      exact fun h' => hq h'.symm
  have hpreget : fsGet (applyEvents fs0 (FEvent.create (dest ++ ".part") ::
      (r.chunks.filter (fun c => decide (c ≠ []))).map (FEvent.append (dest ++ ".part"))))
      (dest ++ ".part") = some (spk_full_content r) := by
    have h1 : applyEvents fs0 (FEvent.create (dest ++ ".part") ::
        (r.chunks.filter (fun c => decide (c ≠ []))).map (FEvent.append (dest ++ ".part")))
        = applyEvents (fsSet fs0 (dest ++ ".part") [])
            ((r.chunks.filter (fun c => decide (c ≠ []))).map
              (FEvent.append (dest ++ ".part"))) := rfl
    rw [h1, fsGet_append_run _ _ _ [] (fsGet_fsSet_self fs0 (dest ++ ".part") [])]
    simp [spk_full_content]
  have hfold : applyEvents fs0 (spk_download_events r dest)
      = applyEvent (applyEvents fs0 (FEvent.create (dest ++ ".part") ::
          (r.chunks.filter (fun c => decide (c ≠ []))).map
            (FEvent.append (dest ++ ".part")))) (FEvent.move (dest ++ ".part") dest) := by
    rw [hev]
    simp [applyEvents, List.foldl_append]
  refine ⟨hside, ?_, ?_, ?_⟩
  · intro k hk
    exact hside dest (fun h' => part_ne_self dest h'.symm) k hk
  · rw [hfold]
    simp only [applyEvent, hpreget]
    rw [fsGet_fsRemove_ne _ _ _ (fun h' => part_ne_self dest h'.symm), fsGet_fsSet_self]
  · rw [hfold]
    simp only [applyEvent, hpreget]
    exact fsGet_fsRemove_self _ _

/-- Witness for C1 (amended): a concrete two-chunk download of `[[3], [4]]`
published at `"x"` ends with the full content at the destination. -/
theorem C1_speaker_atomic_publish_witness :
    fsGet (applyEvents [] (spk_download_events ⟨200, [[3], [4]]⟩ "x")) "x"
      = some (spk_full_content ⟨200, [[3], [4]]⟩) :=
  (C1_speaker_atomic_publish ⟨200, [[3], [4]]⟩ "x" [] rfl).2.2.1

-- ---------- name sanitization (sermonaudio.py / old_sermonaudio.py / sa_speaker.py) ----------

/-- Python `str.isspace` characters relevant to `str.strip()` and `\s`. -/
def pyIsSpace (c : Char) : Bool :=
  c == ' ' || c == '\t' || c == '\n' || c == '\x0d' || c == '\x0b' || c == '\x0c'

/-- Python `s.strip()`. -/
def pyStrip (s : List Char) : List Char :=
  ((s.dropWhile pyIsSpace).reverse.dropWhile pyIsSpace).reverse

/-- Python `s.rstrip(".")`. -/
def pyRstripDot (s : List Char) : List Char :=
  (s.reverse.dropWhile (fun c => c == '.')).reverse

/-- The reserved set `<>:"/\|?*` of the regex in `sermonaudio.sanitize_filename`
and `old_sermonaudio.sanitize_filename`. -/
def reservedChar (c : Char) : Bool :=
  c == '<' || c == '>' || c == ':' || c == '"' || c == '/' || c == '\\' ||
    c == '|' || c == '?' || c == '*'

/-- `sermonaudio.sanitize_filename`: replace each reserved character by `_`,
strip whitespace, strip trailing dots, and fall back to `"download"` when
nothing is left.  It does not truncate. -/
def sanitize_filename (s : List Char) : List Char :=
  let s1 := s.map (fun c => if reservedChar c then '_' else c)
  let s2 := pyRstripDot (pyStrip s1)
  if s2 = [] then "download".data else s2

/-- `old_sermonaudio.sanitize_filename`: delete reserved characters, strip,
truncate to 251 characters and append the fixed `.mp3` extension. -/
def old_sanitize_filename (s : List Char) : List Char :=
  (pyStrip (s.filter (fun c => !reservedChar c))).take 251 ++ ".mp3".data

/-- The character class `[\\/*?"<>|]` removed by `sa_speaker.slugify`
(`:` is not in it; it is handled by the preceding `replace`). -/
def slugRemoved (c : Char) : Bool :=
  c == '\\' || c == '/' || c == '*' || c == '?' || c == '"' || c == '<' ||
    c == '>' || c == '|'

/-- Python `name.replace(":", " -")`. -/
def replaceColon (s : List Char) : List Char :=
  s.flatMap (fun c => if c = ':' then [' ', '-'] else [c])

/-- `re.sub(r"\s+", " ", ·)`: collapse each whitespace run to a single space.
The boolean records whether we are inside a run already emitted. -/
def collapseWsAux : Bool → List Char → List Char
  | _, [] => []
  | inRun, c :: rest =>
    if pyIsSpace c then
      if inRun then collapseWsAux true rest
      else ' ' :: collapseWsAux true rest
    else c :: collapseWsAux false rest

/-- `sa_speaker.slugify`: empty input gives `"untitled"`; otherwise strip,
replace `:` by `" -"`, delete the `[\\/*?"<>|]` class, collapse whitespace,
and fall back to `"untitled"` when nothing is left. -/
def slugify (s : List Char) : List Char :=
  if s = [] then "untitled".data
  else
    let s4 := collapseWsAux false
      ((replaceColon (pyStrip s)).filter (fun c => !slugRemoved c))
    if s4 = [] then "untitled".data else s4

-- ---------- membership lemmas for the sanitizers ----------

theorem mem_of_mem_dropWhile {α} (p : α → Bool) (l : List α) (c : α)
    (h : c ∈ l.dropWhile p) : c ∈ l := by
  induction l with
  | nil => simp at h
  | cons a t ih =>
    by_cases hp : p a
    · rw [List.dropWhile_cons_of_pos hp] at h
      exact List.mem_cons_of_mem _ (ih h)
    · rw [List.dropWhile_cons_of_neg hp] at h
      exact h

theorem mem_of_mem_pyStrip (s : List Char) (c : Char) (h : c ∈ pyStrip s) : c ∈ s := by
  unfold pyStrip at h
  rw [List.mem_reverse] at h
  have h1 := mem_of_mem_dropWhile _ _ _ h
  rw [List.mem_reverse] at h1
  exact mem_of_mem_dropWhile _ _ _ h1

theorem mem_of_mem_pyRstripDot (s : List Char) (c : Char) (h : c ∈ pyRstripDot s) :
    c ∈ s := by
  unfold pyRstripDot at h
  rw [List.mem_reverse] at h
  have h1 := mem_of_mem_dropWhile _ _ _ h
  rwa [List.mem_reverse] at h1

theorem mem_replaceColon (s : List Char) (c : Char) (h : c ∈ replaceColon s) :
    c = ' ' ∨ c = '-' ∨ (c ∈ s ∧ c ≠ ':') := by
  unfold replaceColon at h
  rw [List.mem_flatMap] at h
  obtain ⟨b, hb, hc⟩ := h
  by_cases hcol : b = ':'
  · rw [if_pos hcol] at hc
    rcases List.mem_cons.mp hc with h1 | h1
    · exact Or.inl h1
    · simp at h1
      exact Or.inr (Or.inl h1)
  · rw [if_neg hcol] at hc
    simp at hc
    subst hc
    exact Or.inr (Or.inr ⟨hb, hcol⟩)

theorem mem_collapseWsAux (b : Bool) (s : List Char) (c : Char)
    (h : c ∈ collapseWsAux b s) : c = ' ' ∨ c ∈ s := by
  induction s generalizing b with
  | nil => simp [collapseWsAux] at h
  | cons a t ih =>
    by_cases hsp : pyIsSpace a
    · by_cases hb : b = true
      · subst hb
        rw [collapseWsAux, if_pos hsp, if_pos rfl] at h
        rcases ih true h with h1 | h1
        · exact Or.inl h1
        · exact Or.inr (List.mem_cons_of_mem _ h1)
      · have hb' : b = false := by cases b <;> simp_all
        subst hb'
        rw [collapseWsAux, if_pos hsp] at h
        simp only [Bool.false_eq_true, if_false] at h
        rcases List.mem_cons.mp h with h1 | h1
        · exact Or.inl h1
        · rcases ih true h1 with h2 | h2
          · exact Or.inl h2
          · exact Or.inr (List.mem_cons_of_mem _ h2)
    · rw [collapseWsAux, if_neg hsp] at h
      rcases List.mem_cons.mp h with h1 | h1
      · subst h1
        exact Or.inr (List.mem_cons_self _ _)
      · rcases ih false h1 with h2 | h2
        · exact Or.inl h2
        · exact Or.inr (List.mem_cons_of_mem _ h2)

theorem reservedChar_false_of (c : Char) (h1 : slugRemoved c = false) (h2 : c ≠ ':') :
    reservedChar c = false := by
  simp only [slugRemoved, Bool.or_eq_false_iff, beq_eq_false_iff_ne] at h1
  simp only [reservedChar, Bool.or_eq_false_iff, beq_eq_false_iff_ne]
  tauto

set_option maxRecDepth 8000 in
/-- C4: the claim asserts the 255-character bound for inputs containing
reserved characters, but `sermonaudio.sanitize_filename` never truncates:
the input `'<'` followed by 251 `'a'`s contains a reserved character, is
sanitized to 252 characters (`'<'` becomes `'_'`), and with the fixed
`.mp3` extension is 256 characters long. -/
theorem C4_counterexample :
    ¬ ((sanitize_filename ('<' :: List.replicate 251 'a') ++ ".mp3".data).length
        ≤ 255) := by
  decide

set_option maxRecDepth 8000 in
/-- C4 (amended): all three sanitizers remove every reserved character
`<>:"/\|?*` from their input, and `old_sermonaudio.sanitize_filename`
additionally bounds its output (with the appended fixed `.mp3` extension) by
255 characters; `sermonaudio.sanitize_filename` and `sa_speaker.slugify` do
not truncate — the last conjunct exhibits a reserved-character-containing
input (`'<'` followed by 255 `'a'`s) on which `slugify`'s output plus the
fixed extension exceeds 255 characters — so only the old sanitizer satisfies
the length half of the claim. -/
theorem C4_sanitizers_reserved_free (s : List Char) :
    (∀ c ∈ sanitize_filename s, reservedChar c = false)
    ∧ (∀ c ∈ old_sanitize_filename s, reservedChar c = false)
    ∧ (old_sanitize_filename s).length ≤ 255
    ∧ (∀ c ∈ slugify s, reservedChar c = false)
    ∧ ¬ ((slugify ('<' :: List.replicate 255 'a') ++ ".mp3".data).length ≤ 255) := by
  have hdl : ∀ x ∈ "download".data, reservedChar x = false := by decide
  have hut : ∀ x ∈ "untitled".data, reservedChar x = false := by decide
  have hmp : ∀ x ∈ ".mp3".data, reservedChar x = false := by decide
  refine ⟨?_, ?_, ?_, ?_, by decide⟩
  · intro c hc
    simp only [sanitize_filename] at hc
    split at hc
    · exact hdl c hc
    · have h1 := mem_of_mem_pyStrip _ _ (mem_of_mem_pyRstripDot _ _ hc)
      obtain ⟨a, _, ha⟩ := List.mem_map.mp h1
      by_cases hr : reservedChar a = true
      · rw [if_pos hr] at ha
        rw [← ha]
        decide
      · rw [if_neg hr] at ha
        rw [← ha]
        exact Bool.eq_false_iff.mpr hr
  · intro c hc
    unfold old_sanitize_filename at hc
    rcases List.mem_append.mp hc with h1 | h1
    · have h2 := mem_of_mem_pyStrip _ _ (List.take_subset _ _ h1)
      have h3 := List.mem_filter.mp h2
      simpa using h3.2
    · exact hmp c h1
  · unfold old_sanitize_filename
    rw [List.length_append, List.length_take]
    have h4 : (".mp3".data).length = 4 := rfl
    rw [h4]
    have h5 := Nat.min_le_left 251
      (pyStrip ((s.filter (fun c => !reservedChar c)))).length
    omega
  · intro c hc
    simp only [slugify] at hc
    split at hc
    · exact hut c hc
    · split at hc
      · exact hut c hc
      · rcases mem_collapseWsAux _ _ _ hc with h1 | h1
        · rw [h1]; decide
        · have h2 := List.mem_filter.mp h1
          have h3 : slugRemoved c = false := by simpa using h2.2
          rcases mem_replaceColon _ _ h2.1 with h4 | h4 | h4
          · rw [h4]; decide
          · rw [h4]; decide
          · exact reservedChar_false_of c h3 h4.2

/-- C10: every input, including the empty string and strings of nothing but
reserved characters or whitespace, sanitizes to a non-empty name:
`slugify` falls back to `"untitled"` and `sanitize_filename` to
`"download"`, so no file or folder name component is ever empty. -/
theorem C10_sanitizers_nonempty :
    (∀ s : List Char, slugify s ≠ [] ∧ sanitize_filename s ≠ [])
    ∧ slugify [] = "untitled".data
    ∧ slugify "???".data = "untitled".data
    ∧ slugify "   ".data = "untitled".data
    ∧ sanitize_filename [] = "download".data
    ∧ sanitize_filename " . ".data = "download".data := by
  have hu : ("untitled".data : List Char) ≠ [] := by decide
  have hd : ("download".data : List Char) ≠ [] := by decide
  refine ⟨?_, by decide, by decide, by decide, by decide, by decide⟩
  intro s
  constructor
  · simp only [slugify]
    split
    · exact hu
    · split
      · exact hu
      · next h4 => exact h4
  · simp only [sanitize_filename]
    split
    · exact hd
    · next h2 => exact h2

-- ---------- paginated enumeration (sa_speaker.collect_sermon_ids_via_node) ----------

/-- The pagination loop of `sa_speaker.collect_sermon_ids_via_node`, with the
network abstracted as an oracle from page number to page outcome: `none`
models a non-200 status or a request exception (both `break` in the source),
`some pageIds` a 200 response after id extraction.  The result carries the
accumulated id list and the number of page requests issued.  The fuel is the
remaining iterations of `for page in range(1, max_pages + 1)`. -/
def collect_loop (oracle : Nat → Option (List String)) (pageSize : Nat) :
    Nat → Nat → List String → List String → List String × Nat
  | 0, _, acc, _ => (acc, 0)
  | fuel + 1, page, acc, seen =>
    match oracle page with
    | none => (acc, 1)
    | some pageIds =>
      let newIds := pageIds.filter (fun sid => decide (sid ∉ seen))
      if pageIds = [] then (acc, 1)
      else
        if pageIds.length < pageSize then (acc ++ newIds, 1)
        else
          let r := collect_loop oracle pageSize fuel (page + 1) (acc ++ newIds)
            (seen ++ newIds)
          (r.1, r.2 + 1)

/-- `sa_speaker.collect_sermon_ids_via_node` after endpoint discovery: pages
are numbered from 1 and at most `maxPages` are visited. -/
def collect_sermon_ids_via_node (oracle : Nat → Option (List String))
    (pageSize maxPages : Nat) : List String × Nat :=
  collect_loop oracle pageSize maxPages 1 [] []

/-- The C3 scenario oracle: page 1 yields `[1, 2]`, page 2 yields `[2, 3]`,
every later page yields a 200 response with no ids. -/
def c3Oracle : Nat → Option (List String) := fun p =>
  if p = 1 then some ["1", "2"]
  else if p = 2 then some ["2", "3"]
  else some []

/-- C3: the claim says enumeration stops after page 2 with no request for
page 3; in fact page 2 is a full page (`len(page_ids) = pageSize = 2`), so
the short-page heuristic does not fire and a third request is issued. -/
theorem C3_counterexample :
    (collect_sermon_ids_via_node c3Oracle 2 50).2 ≠ 2 := by
  decide

/-- C3 (amended): with `pageSize = 2`, pages `[1,2]` then `[2,3]`, enumeration
returns exactly `[1, 2, 3]` (first-seen order, duplicates removed), but it
issues three page requests: page 2 is a full page, so the loop proceeds to
page 3 and stops only when that page returns no identifiers. -/
theorem C3_scenario :
    collect_sermon_ids_via_node c3Oracle 2 50 = (["1", "2", "3"], 3) := by
  decide

/-- The C7 companion oracle: page 1 is full, page 2 fails with a non-200
status. -/
def c7Oracle : Nat → Option (List String) := fun p =>
  if p = 1 then some ["1", "2"] else none

/-- C7: a non-200 (or failing) mid-pagination request makes the loop stop and
return exactly what was accumulated so far, as a normal value — the embedded
loop is a total function, no exception escapes; concretely, a failure on
page 2 yields the partial result of page 1. -/
theorem C7_non200_partial_result (oracle : Nat → Option (List String))
    (pageSize fuel page : Nat) (acc seen : List String)
    (h : oracle page = none) :
    collect_loop oracle pageSize (fuel + 1) page acc seen = (acc, 1)
    ∧ collect_sermon_ids_via_node c7Oracle 2 50 = (["1", "2"], 2) := by
  constructor
  · simp [collect_loop, h]
  · decide

/-- Witness for C7: a concrete failing page returns the accumulator. -/
theorem C7_non200_partial_result_witness :
    collect_loop (fun _ => none) 2 (49 + 1) 1 ["9"] ["9"] = (["9"], 1)
    ∧ collect_sermon_ids_via_node c7Oracle 2 50 = (["1", "2"], 2) :=
  C7_non200_partial_result (fun _ => none) 2 49 1 ["9"] ["9"] rfl

-- ---------- quality-fallback ladder (sermonaudio.download_audio_with_fallback) ----------

/-- Audio quality tiers of `sermonaudio.py`. -/
inductive AQ where
  | high
  | low
deriving DecidableEq

/-- A transport failure caught by `download_audio_with_fallback`: an
`HTTPError` with its status code, or a `URLError` with its reason. -/
inductive TErr where
  | http (code : Nat)
  | url (reason : String)
deriving DecidableEq

/-- The terminal error of `download_audio_with_fallback`: `raise last_error`,
or the `RuntimeError` branch when no error was ever recorded. -/
inductive DLErr where
  | last (e : TErr)
  | unknown
deriving DecidableEq

/-- The quality ladder `("high", "low")` of `download_audio_with_fallback`. -/
def audioLadder : List AQ := [AQ.high, AQ.low]

/-- The tier loop of `sermonaudio.download_audio_with_fallback`: try each
quality in ladder order; a success publishes the streamed body at `dest` and
returns at once; a failure records the error as `last_error` and moves on.
The oracle `dl` models `download_file` per tier: `.ok c` a completed stream
with body `c`, `.error e` an `HTTPError`/`URLError` raised by `urlopen`
before anything is written.  Returns the filesystem, the outcome, and the
tiers attempted in order. -/
def ladder_loop (dl : AQ → Except TErr (List Nat)) (fs : FS) (dest : String) :
    List AQ → Option TErr → FS × Except DLErr String × List AQ
  | [], none => (fs, Except.error DLErr.unknown, [])
  | [], some e => (fs, Except.error (DLErr.last e), [])
  | q :: rest, _ =>
    match dl q with
    | Except.ok c => (fsSet fs dest c, Except.ok dest, [q])
    | Except.error e =>
      let r := ladder_loop dl fs dest rest (some e)
      (r.1, r.2.1, q :: r.2.2)

def download_audio_with_fallback (dl : AQ → Except TErr (List Nat)) (fs : FS)
    (dest : String) : FS × Except DLErr String × List AQ :=
  ladder_loop dl fs dest audioLadder none

/-- C5: for the ladder `[high, low]`, the high tier is always attempted
first; if high fails with any transport error and low succeeds with body
`c`, the published file at the destination is `c` (it originates from the
low tier) and exactly the tiers `[high, low]` were attempted; if high
succeeds, only `[high]` is attempted — a success stops the ladder. -/
theorem C5_fallback_precedence (dl : AQ → Except TErr (List Nat)) (fs : FS)
    (dest : String) :
    ((download_audio_with_fallback dl fs dest).2.2.head? = some AQ.high)
    ∧ (∀ e c, dl AQ.high = Except.error e → dl AQ.low = Except.ok c →
        download_audio_with_fallback dl fs dest
          = (fsSet fs dest c, Except.ok dest, [AQ.high, AQ.low])
        ∧ fsGet (download_audio_with_fallback dl fs dest).1 dest = some c)
    ∧ (∀ c, dl AQ.high = Except.ok c →
        download_audio_with_fallback dl fs dest
          = (fsSet fs dest c, Except.ok dest, [AQ.high])) := by
  refine ⟨?_, ?_, ?_⟩
  · cases h : dl AQ.high <;>
      simp [download_audio_with_fallback, audioLadder, ladder_loop, h]
  · intro e c h1 h2
    constructor
    · simp [download_audio_with_fallback, audioLadder, ladder_loop, h1, h2]
    · simp [download_audio_with_fallback, audioLadder, ladder_loop, h1, h2,
        fsGet_fsSet_self]
  · intro c h1
    simp [download_audio_with_fallback, audioLadder, ladder_loop, h1]

/-- A concrete oracle for the C5 witness: high 404s, low succeeds. -/
def c5dl : AQ → Except TErr (List Nat) := fun q =>
  match q with
  | AQ.high => Except.error (TErr.http 404)
  | AQ.low => Except.ok [9]

/-- Witness for C5: with a 404 on high and a 200 on low, the file published
at the destination is the low-tier body and both tiers were attempted in
order. -/
theorem C5_fallback_precedence_witness :
    download_audio_with_fallback c5dl [] "s.mp3"
      = (fsSet [] "s.mp3" [9], Except.ok "s.mp3", [AQ.high, AQ.low]) :=
  ((C5_fallback_precedence c5dl [] "s.mp3").2.1 (TErr.http 404) [9] rfl rfl).1

-- ---------- per-item job (sa_speaker.download_sermon_audio and main loop) ----------

/-- Metadata scraped from a sermon page by `fetch_sermon_page`: display title
and optional series title. -/
structure Meta where
  title : String
  series : Option String

/-- `slugify` lifted to `String` (the sanitizer embedding works on
`List Char`). -/
def slugifyStr (s : String) : String := String.mk (slugify s.data)

/-- The destination path built by `download_sermon_audio`:
`root / slugify(speaker) / [slugify(series) /] slugify(title).mp3`. -/
def destPath (root speaker : String) (m : Meta) : String :=
  let base :=
    match m.series with
    | some se => root ++ "/" ++ slugifyStr speaker ++ "/" ++ slugifyStr se
    | none => root ++ "/" ++ slugifyStr speaker
  base ++ "/" ++ slugifyStr m.title ++ ".mp3"

/-- `sa_speaker.download_sermon_audio` with the network abstracted: `meta` is
the sermon-page fetch (`fetch_sermon_page`, one network request, performed
unconditionally to compute the destination), `media sid` abstracts the
low-then-high `download_file` chain (`some c` = some tier streamed body `c`,
`none` = every tier failed).  Returns the filesystem and the counts
(metadata fetches, media-ladder invocations) for this item.  The existence
check on the destination short-circuits the media download only. -/
def download_sermon_audio (meta : String → Meta)
    (media : String → Option (List Nat)) (root speaker : String) (fs : FS)
    (sid : String) : FS × Nat × Nat :=
  let dest := destPath root speaker (meta sid)
  if (fsGet fs dest).isSome then (fs, 1, 0)
  else
    match media sid with
    | some c => (fsSet fs dest c, 1, 1)
    | none => (fs, 1, 1)

/-- The per-item loop of `sa_speaker.main` over the deduplicated sermon ids:
items are processed sequentially and failures are isolated per item. -/
def run_job (meta : String → Meta) (media : String → Option (List Nat))
    (root speaker : String) : FS → List String → FS × Nat × Nat
  | fs, [] => (fs, 0, 0)
  | fs, sid :: rest =>
    let r1 := download_sermon_audio meta media root speaker fs sid
    let r2 := run_job meta media root speaker r1.1 rest
    (r2.1, r1.2.1 + r2.2.1, r1.2.2 + r2.2.2)

theorem fsGet_fsSet_isSome (fs : FS) (d p : String) (c : List Nat)
    (h : (fsGet fs p).isSome) : (fsGet (fsSet fs d c) p).isSome := by
  by_cases hp : p = d
  · subst hp
    rw [fsGet_fsSet_self]
    rfl
  · rw [fsGet_fsSet_ne fs d p c (fun h' => hp h'.symm)]
    exact h

theorem download_sermon_audio_isSome (meta : String → Meta)
    (media : String → Option (List Nat)) (root speaker : String) (fs : FS)
    (sid p : String) (h : (fsGet fs p).isSome) :
    (fsGet (download_sermon_audio meta media root speaker fs sid).1 p).isSome := by
  unfold download_sermon_audio
  by_cases hx : (fsGet fs (destPath root speaker (meta sid))).isSome
  · rw [if_pos hx]
    exact h
  · rw [if_neg hx]
    cases hm : media sid with
    | none => exact h
    | some c => exact fsGet_fsSet_isSome fs _ p c h

theorem run_job_isSome (meta : String → Meta)
    (media : String → Option (List Nat)) (root speaker : String)
    (ids : List String) (fs : FS) (p : String) (h : (fsGet fs p).isSome) :
    (fsGet (run_job meta media root speaker fs ids).1 p).isSome := by
  induction ids generalizing fs with
  | nil => exact h
  | cons sid rest ih =>
    exact ih _ (download_sermon_audio_isSome meta media root speaker fs sid p h)

theorem run_job_all_present (meta : String → Meta)
    (media : String → Option (List Nat)) (root speaker : String)
    (ids : List String) (fs : FS)
    (hall : ∀ sid ∈ ids, (media sid).isSome) :
    ∀ sid ∈ ids,
      (fsGet (run_job meta media root speaker fs ids).1
        (destPath root speaker (meta sid))).isSome := by
  induction ids generalizing fs with
  | nil => intro sid h; simp at h
  | cons a rest ih =>
    intro sid hsid
    rcases List.mem_cons.mp hsid with h1 | h1
    · subst h1
      have hstep : (fsGet (download_sermon_audio meta media root speaker fs sid).1
          (destPath root speaker (meta sid))).isSome := by
        unfold download_sermon_audio
        by_cases hx : (fsGet fs (destPath root speaker (meta sid))).isSome
        · rw [if_pos hx]; exact hx
        · rw [if_neg hx]
          cases hm : media sid with
          | none =>
            have := hall sid (List.mem_cons_self _ _)
            rw [hm] at this
            simp at this
          | some c =>
            rw [fsGet_fsSet_self]
            rfl
      exact run_job_isSome meta media root speaker rest _ _ hstep
    · exact ih _ (fun x hx => hall x (List.mem_cons_of_mem _ hx)) sid h1

theorem run_job_skip_all (meta : String → Meta)
    (media : String → Option (List Nat)) (root speaker : String)
    (ids : List String) (fs : FS)
    (hall : ∀ sid ∈ ids, (fsGet fs (destPath root speaker (meta sid))).isSome) :
    run_job meta media root speaker fs ids = (fs, ids.length, 0) := by
  induction ids with
  | nil => rfl
  | cons a rest ih =>
    have hstep : download_sermon_audio meta media root speaker fs a = (fs, 1, 0) := by
      unfold download_sermon_audio
      rw [if_pos (hall a (List.mem_cons_self _ _))]
    show (let r1 := download_sermon_audio meta media root speaker fs a
          let r2 := run_job meta media root speaker r1.1 rest
          (r2.1, r1.2.1 + r2.2.1, r1.2.2 + r2.2.2)) = (fs, (a :: rest).length, 0)
    rw [hstep]
    simp only []
    rw [ih (fun x hx => hall x (List.mem_cons_of_mem _ hx))]
    simp [List.length_cons, Nat.add_comm]

/-- C2: the claim says an item whose destination already exists causes no
network fetch at all; in fact `download_sermon_audio` always performs the
metadata fetch of the sermon page first (it is needed to compute the
destination path), so the total request count for an already-done item is 1,
not 0. -/
theorem C2_counterexample :
    ¬ ((download_sermon_audio (fun _ => ⟨"T", none⟩) (fun _ => some [1]) "." "Spk"
          [(destPath "." "Spk" ⟨"T", none⟩, [7])] "1").2.1
        + (download_sermon_audio (fun _ => ⟨"T", none⟩) (fun _ => some [1]) "." "Spk"
          [(destPath "." "Spk" ⟨"T", none⟩, [7])] "1").2.2 = 0) := by
  decide

/-- C2 (amended): an item whose destination file exists is not re-downloaded
(no media-ladder invocation, filesystem unchanged), though one metadata
fetch of its detail page still occurs each run to compute the path; hence,
when every item's media download succeeds, a second run of the same job
performs zero media downloads, one metadata fetch per item, and leaves the
file set identical to the first run's. -/
theorem C2_idempotence (meta : String → Meta)
    (media : String → Option (List Nat)) (root speaker : String) (fs0 : FS)
    (ids : List String) (hall : ∀ sid ∈ ids, (media sid).isSome) :
    (∀ fs sid, (fsGet fs (destPath root speaker (meta sid))).isSome →
        download_sermon_audio meta media root speaker fs sid = (fs, 1, 0))
    ∧ run_job meta media root speaker
        (run_job meta media root speaker fs0 ids).1 ids
        = ((run_job meta media root speaker fs0 ids).1, ids.length, 0) := by
  constructor
  · intro fs sid h
    unfold download_sermon_audio
    rw [if_pos h]
  · exact run_job_skip_all meta media root speaker ids _
      (run_job_all_present meta media root speaker ids fs0 hall)

/-- Witness for C2 (amended): a concrete two-item job run twice ends its
second run with zero media downloads and an unchanged filesystem. -/
theorem C2_idempotence_witness :
    run_job (fun _ => ⟨"T", none⟩) (fun _ => some [1]) "." "Spk"
        (run_job (fun _ => ⟨"T", none⟩) (fun _ => some [1]) "." "Spk" [] ["1", "2"]).1
        ["1", "2"]
      = ((run_job (fun _ => ⟨"T", none⟩) (fun _ => some [1]) "." "Spk" [] ["1", "2"]).1,
         (["1", "2"] : List String).length, 0) :=
  (C2_idempotence (fun _ => ⟨"T", none⟩) (fun _ => some [1]) "." "Spk" [] ["1", "2"]
    (by decide)).2

/-- C6: when every tier of the ladder fails, `download_audio_with_fallback`
terminates with the last recorded transport error (the low tier's), both
tiers having been attempted, and the filesystem is unchanged — nothing is
published at the destination; moreover, in the per-item job loop, an item
whose media download fails entirely leaves the filesystem exactly as the
remaining items alone would — the failure is terminal for that single item
only. -/
theorem C6_all_tiers_fail (dl : AQ → Except TErr (List Nat)) (fs : FS)
    (dest : String) (e1 e2 : TErr)
    (h1 : dl AQ.high = Except.error e1) (h2 : dl AQ.low = Except.error e2) :
    download_audio_with_fallback dl fs dest
      = (fs, Except.error (DLErr.last e2), [AQ.high, AQ.low])
    ∧ (∀ meta media root speaker fs1 (sid : String) rest, media sid = none →
        (run_job meta media root speaker fs1 (sid :: rest)).1
          = (run_job meta media root speaker fs1 rest).1) := by
  constructor
  · simp [download_audio_with_fallback, audioLadder, ladder_loop, h1, h2]
  · intro meta media root speaker fs1 sid rest hm
    have hfs : (download_sermon_audio meta media root speaker fs1 sid).1 = fs1 := by
      unfold download_sermon_audio
      by_cases h : (fsGet fs1 (destPath root speaker (meta sid))).isSome
      · rw [if_pos h]
      · rw [if_neg h, hm]
    show (run_job meta media root speaker
        (download_sermon_audio meta media root speaker fs1 sid).1 rest).1 = _
    rw [hfs]

/-- Witness for C6: both tiers failing with HTTP 404 ends in
`DLErr.last (http 404)` with nothing published. -/
theorem C6_all_tiers_fail_witness :
    download_audio_with_fallback (fun _ => Except.error (TErr.http 404)) [] "x"
      = ([], Except.error (DLErr.last (TErr.http 404)), [AQ.high, AQ.low]) :=
  (C6_all_tiers_fail (fun _ => Except.error (TErr.http 404)) [] "x"
    (TErr.http 404) (TErr.http 404) rfl rfl).1

-- ---------- credential logic (sa_auth.py) ----------

/-- The character class `[A-F0-9-]` of the key patterns in `sa_auth.py`. -/
def keyChar (c : Char) : Bool :=
  (('A' ≤ c) && (c ≤ 'F')) || (('0' ≤ c) && (c ≤ '9')) || c == '-'

/-- `re.match(r"^[A-F0-9-]\x7b30,\x7d$", key)`: the cached key's surface
format — at least 30 characters, all from the class. -/
def keyFormatOk (k : List Char) : Bool :=
  (30 ≤ k.length) && k.all keyChar

/-- The literal preceding the embedded key in the homepage markup. -/
def apiKeyLit : List Char := "apiKey:\"".data

/-- After the literal: the greedy `([A-F0-9-]+)` capture followed by the
closing quote; the quote is not in the class, so the maximal run must be
non-empty and immediately followed by `"`. -/
def scanKeyAfterLit (after : List Char) : Option (List Char) :=
  let run := after.takeWhile keyChar
  if run = [] then none
  else if (after.dropWhile keyChar).head? = some '"' then some run
  else none

def findApiKeyAux : Nat → List Char → Option (List Char)
  | 0, _ => none
  | _ + 1, [] => none
  | fuel + 1, c :: rest =>
    if apiKeyLit.isPrefixOf (c :: rest) then
      match scanKeyAfterLit ((c :: rest).drop apiKeyLit.length) with
      | some k => some k
      | none => findApiKeyAux fuel rest
    else findApiKeyAux fuel rest

/-- `re.search` for the embedded key literal in `fetch_new_key`: leftmost
match wins; a failed tail moves the scan one character forward.  The fuel is
the text length; every recursive call drops at least one character. -/
def findApiKey (html : List Char) : Option (List Char) :=
  findApiKeyAux html.length html

/-- The error `get_api_key` can end with: key extraction failed on the
fetched page (`ValueError` in `fetch_new_key`). -/
inductive AuthErr where
  | notFound
deriving DecidableEq

/-- Outcome of the credential logic: the returned key or error, the content
of the single-value store `auth.txt` afterwards, and whether a fresh fetch
of the public page was performed. -/
structure AuthOutcome where
  result : Except AuthErr (List Char)
  store : Option (List Char)
  fetched : Bool

/-- `sa_auth.fetch_new_key`: scan the homepage body for the embedded key; on
a match, persist it to `auth.txt` (wholesale overwrite) and return it;
otherwise raise.  The store keeps its previous content when extraction
fails. -/
def fetch_new_key (html : List Char) (store0 : Option (List Char)) : AuthOutcome :=
  match findApiKey html with
  | some k => ⟨Except.ok k, some k, true⟩
  | none => ⟨Except.error AuthErr.notFound, store0, true⟩

/-- `sa_auth.get_api_key`: unless forced, read the cached key from
`auth.txt` (`none` = file absent), strip it, and discard it when it is
empty, fails the surface-format check, or fails the liveness probe
`validate`; any discard falls through to `fetch_new_key`. -/
def get_api_key (forceRefresh : Bool) (store0 : Option (List Char))
    (validate : List Char → Bool) (html : List Char) : AuthOutcome :=
  if forceRefresh then fetch_new_key html store0
  else
    match store0 with
    | none => fetch_new_key html store0
    | some raw =>
      let key := pyStrip raw
      if key = [] then fetch_new_key html store0
      else if !keyFormatOk key then fetch_new_key html store0
      else if !validate key then fetch_new_key html store0
      else ⟨Except.ok key, store0, false⟩

/-- C8: a cached token failing the surface-format check is discarded:
`get_api_key` performs a fresh fetch of the public page and, when the
embedded-literal pattern matches a key `k` there, persists `k` to the store
and returns it; when the pattern matches nothing in the page, the call ends
with the auth error and returns no token (the store is left as it was). -/
theorem C8_malformed_cache (raw : List Char) (validate : List Char → Bool)
    (html : List Char) (hbad : keyFormatOk (pyStrip raw) = false) :
    (∀ k, findApiKey html = some k →
        get_api_key false (some raw) validate html = ⟨Except.ok k, some k, true⟩)
    ∧ (findApiKey html = none →
        get_api_key false (some raw) validate html
          = ⟨Except.error AuthErr.notFound, some raw, true⟩) := by
  have hfetch : get_api_key false (some raw) validate html
      = fetch_new_key html (some raw) := by
    unfold get_api_key
    by_cases hk : pyStrip raw = []
    · simp [hk]
    · simp [hk, hbad]
  constructor
  · intro k hk2
    rw [hfetch]
    unfold fetch_new_key
    rw [hk2]
  · intro hnone
    rw [hfetch]
    unfold fetch_new_key
    rw [hnone]

/-- Witness for C8: the malformed cached token `"zz"` is discarded and the
key embedded in the page is extracted, persisted and returned. -/
theorem C8_malformed_cache_witness :
    get_api_key false (some "zz".data) (fun _ => true)
        "xx apiKey:\"AB-09\" yy".data
      = ⟨Except.ok "AB-09".data, some "AB-09".data, true⟩ :=
  (C8_malformed_cache "zz".data (fun _ => true) "xx apiKey:\"AB-09\" yy".data
    (by decide)).1 "AB-09".data (by decide)

-- ---------- id extraction (sa_speaker.extract_sermon_ids_from_node_response) ----------

/-- A Python value found in a `sermonID` field: JSON int or string. -/
inductive PyVal where
  | int (n : Int)
  | str (s : List Char)

/-- Python `str(·)` applied to a `sermonID` value. -/
def pyValStr : PyVal → List Char
  | PyVal.int n => (toString n).data
  | PyVal.str s => s

/-- One element of the `results` list: its `"sermonID"` field, when
present (`"sermonID" in item`). -/
structure NodeItem where
  sid : Option PyVal

/-- What `json.loads` made of the body: a dict with its optional `results`
list, or some other JSON value; `none` at the use site stands for a
`JSONDecodeError`. -/
inductive NodeDoc where
  | dict (results : Option (List NodeItem))
  | nonDict

/-- Phase 1 of the extractor: ids read from a parsed dict's `results` list
(each present `sermonID`, coerced to text). -/
def phase1_ids : Option NodeDoc → List (List Char)
  | some (NodeDoc.dict (some items)) =>
      items.filterMap (fun it => it.sid.map pyValStr)
  | _ => []

def isDigitCh (c : Char) : Bool := ('0' ≤ c) && (c ≤ '9')

def sermonsLit : List Char := "/sermons/".data

def sermonIdLit : List Char := "\"sermonID\":".data

def pathScanAux : Nat → List Char → List (List Char)
  | 0, _ => []
  | _ + 1, [] => []
  | fuel + 1, c :: rest =>
    if sermonsLit.isPrefixOf (c :: rest) then
      let after := (c :: rest).drop sermonsLit.length
      let ds := after.takeWhile isDigitCh
      if ds = [] then pathScanAux fuel rest
      else ds :: pathScanAux fuel (after.dropWhile isDigitCh)
    else pathScanAux fuel rest

/-- `re.findall(r"/sermons/(\d+)", text)`: leftmost, non-overlapping; after
a match the scan resumes at the end of the match, after a failed literal it
moves one character forward.  The fuel is the text length; every recursive
call drops at least one character. -/
def pathScan (text : List Char) : List (List Char) := pathScanAux text.length text

/-- The tail of `"sermonID":\s*"?(\d+)"?` after its literal: skip
whitespace, optionally consume an opening quote when a digit follows it,
take the greedy digit run (the capture), optionally consume a closing
quote.  Returns the capture and the remainder after the whole match. -/
def keyScanTail (after : List Char) : Option (List Char × List Char) :=
  let aw := after.dropWhile pyIsSpace
  match aw with
  | '"' :: t =>
    let ds := t.takeWhile isDigitCh
    if ds = [] then none
    else
      let r := t.dropWhile isDigitCh
      some (ds, if r.head? = some '"' then r.tail else r)
  | _ =>
    let ds := aw.takeWhile isDigitCh
    if ds = [] then none
    else
      let r := aw.dropWhile isDigitCh
      some (ds, if r.head? = some '"' then r.tail else r)

def keyScanAux : Nat → List Char → List (List Char)
  | 0, _ => []
  | _ + 1, [] => []
  | fuel + 1, c :: rest =>
    if sermonIdLit.isPrefixOf (c :: rest) then
      match keyScanTail ((c :: rest).drop sermonIdLit.length) with
      | some (ds, r) => ds :: keyScanAux fuel r
      | none => keyScanAux fuel rest
    else keyScanAux fuel rest

/-- `re.findall` for the key-style pattern `"sermonID":\s*"?(\d+)"?`. -/
def keyScan (text : List Char) : List (List Char) := keyScanAux text.length text

/-- The first-seen-order dedup loop closing the extractor. -/
def dedupAux {α} [DecidableEq α] (seen : List α) : List α → List α
  | [] => []
  | x :: xs => if x ∈ seen then dedupAux seen xs else x :: dedupAux (x :: seen) xs

def dedupFirstSeen {α} [DecidableEq α] (l : List α) : List α := dedupAux [] l

/-- `sa_speaker.extract_sermon_ids_from_node_response`: phase 1 reads
`results[*].sermonID` from the parsed JSON; only when that yields nothing
does phase 2 scan the raw text with the two regexes (their matches
concatenated); the combined list is deduplicated preserving first-seen
order.  `parse` is what `json.loads` produced for `text` (`none` =
`JSONDecodeError`). -/
def extract_sermon_ids (parse : Option NodeDoc) (text : List Char) :
    List (List Char) :=
  let ids := phase1_ids parse
  let ids2 := if ids = [] then pathScan text ++ keyScan text else ids
  dedupFirstSeen ids2

theorem dedupAux_spec {α} [DecidableEq α] (l : List α) (seen : List α) :
    (dedupAux seen l).Nodup ∧ ∀ x ∈ dedupAux seen l, x ∉ seen := by
  induction l generalizing seen with
  | nil => exact ⟨List.nodup_nil, by simp [dedupAux]⟩
  | cons a t ih =>
    by_cases h : a ∈ seen
    · rw [dedupAux, if_pos h]
      exact ih seen
    · rw [dedupAux, if_neg h]
      obtain ⟨hnd, hmem⟩ := ih (a :: seen)
      refine ⟨List.nodup_cons.mpr ⟨fun hx => hmem a hx (List.mem_cons_self _ _), hnd⟩, ?_⟩
      intro x hx
      rcases List.mem_cons.mp hx with h1 | h1
      · subst h1
        exact h
      · exact fun hs => hmem x h1 (List.mem_cons_of_mem _ hs)

theorem dedupAux_eq_self {α} [DecidableEq α] (l : List α) (seen : List α)
    (hnd : l.Nodup) (hdisj : ∀ x ∈ l, x ∉ seen) : dedupAux seen l = l := by
  induction l generalizing seen with
  | nil => rfl
  | cons a t ih =>
    obtain ⟨hnotmem, hndt⟩ := List.nodup_cons.mp hnd
    have hdisj2 : ∀ x ∈ t, x ∉ a :: seen := by
      intro x hx hmem
      rcases List.mem_cons.mp hmem with h1 | h1
      · exact hnotmem (h1 ▸ hx)
      · exact hdisj x (List.mem_cons_of_mem _ hx) h1
    rw [dedupAux, if_neg (hdisj a (List.mem_cons_self _ _)), ih (a :: seen) hndt hdisj2]

/-- C9: a structured body whose `results` list holds identifier-bearing
records extracts exactly those identifiers, coerced to strings, in document
order (independently of the raw text — the fallback phase does not run); a
body that fails JSON parsing extracts exactly its distinct path-style
references when no key-style pattern occurs in it; the extractor's output
never contains duplicates; and the raw text is consulted only when phase 1
produced nothing. -/
theorem C9_dual_extraction :
    (∀ (items : List NodeItem) (text : List Char),
        items ≠ [] → (∀ it ∈ items, it.sid.isSome) →
        (items.filterMap (fun it => it.sid.map pyValStr)).Nodup →
        extract_sermon_ids (some (NodeDoc.dict (some items))) text
          = items.filterMap (fun it => it.sid.map pyValStr))
    ∧ (∀ text : List Char, keyScan text = [] → (pathScan text).Nodup →
        extract_sermon_ids none text = pathScan text)
    ∧ (∀ parse text, (extract_sermon_ids parse text).Nodup)
    ∧ (∀ parse text1 text2, phase1_ids parse ≠ [] →
        extract_sermon_ids parse text1 = extract_sermon_ids parse text2) := by
  refine ⟨?_, ?_, ?_, ?_⟩
  · intro items text hne hall hnd
    have hnonempty : items.filterMap (fun it => it.sid.map pyValStr) ≠ [] := by
      cases items with
      | nil => exact absurd rfl hne
      | cons it t =>
        cases hsid : it.sid with
        | none =>
          have h1 := hall it (List.mem_cons_self _ _)
          rw [hsid] at h1
          simp at h1
        | some v => simp [List.filterMap_cons, hsid]
    have hp1 : phase1_ids (some (NodeDoc.dict (some items)))
        = items.filterMap (fun it => it.sid.map pyValStr) := rfl
    simp only [extract_sermon_ids, hp1, if_neg hnonempty]
    exact dedupAux_eq_self _ [] hnd (by simp)
  · intro text hkey hnd
    have hp1 : phase1_ids none = [] := rfl
    simp only [extract_sermon_ids, hp1, if_pos rfl, hkey, List.append_nil]
    exact dedupAux_eq_self _ [] hnd (by simp)
  · intro parse text
    exact (dedupAux_spec _ []).1
  · intro parse text1 text2 hne
    simp only [extract_sermon_ids, if_neg hne]

/-- Witness for C9: a concrete structured body with two records extracts
exactly their two ids (any raw text ignored), and a concrete non-JSON body
with two path-style references extracts exactly those two. -/
theorem C9_dual_extraction_witness :
    extract_sermon_ids
        (some (NodeDoc.dict (some [⟨some (PyVal.str "12".data)⟩,
          ⟨some (PyVal.str "34".data)⟩]))) "/sermons/99".data
      = ["12".data, "34".data]
    ∧ extract_sermon_ids none "a /sermons/12 b /sermons/34".data
      = pathScan "a /sermons/12 b /sermons/34".data := by
  constructor
  · have h := C9_dual_extraction.1
      [⟨some (PyVal.str "12".data)⟩, ⟨some (PyVal.str "34".data)⟩]
      "/sermons/99".data (List.cons_ne_nil _ _) (by decide) (by decide)
    rw [h]
    rfl
  · exact C9_dual_extraction.2.1 "a /sermons/12 b /sermons/34".data
      (by decide) (by decide)
